import Mathlib

/-!
Verification of the `shared-bus` proxy-forwarding layer (`src/proxies.rs`).

The embedding translates the four proxy types (`I2cProxy`, `SpiProxy`,
`AdcProxy`, `CanProxy`) and their trait implementations into pure Lean
functions (and, for the `nb::block!` busy-poll loop of `AdcProxy::read`, a
big-step relation).  Stateful Rust code becomes explicit state passing: the
guarded bus handle is a state value of type `σ`, each underlying bus operation
is a function `σ → σ × result`, and every proxy operation additionally
produces an observable trace of events (lock acquisitions, lock releases and
calls into the underlying bus handle) so that claims about "exactly one lock
acquisition" and about interleaving can be stated and proved.

Rust `u8` values (addresses and buffer bytes) are modelled as `Nat`; none of
the claims depends on wrap-around behaviour.  Buffers (`&[u8]`, `&mut [u8]`)
are modelled as `List Nat`, a mutable buffer argument by passing the current
contents in and returning the new contents.  `Result<T, E>` is `Except ε τ`
and `nb::Result<T, E> = Result<T, nb::Error<E>>` is `Except (NbError ε) τ`.
-/

namespace SharedBus

/-- One event in the observable trace of a proxy operation: an acquisition or
release of the mutex reference (a value of type `μ`, standing for the Rust
`&'a M` stored in the proxy), or a call into the underlying bus handle,
described by a protocol-specific operation descriptor of type `ω`. -/
inductive BusEvent (μ ω : Type) where
  | lockAcquire (m : μ)
  | lockRelease (m : μ)
  | call (o : ω)
deriving DecidableEq

/-- Modelled from the spec: the repository's `BusMutex` trait (declared in
`lib.rs`, which is not under `src/`; the spec calls it the "lock abstraction")
exposes a single scoped operation — "given a closure operating on a mutable
reference to the shared bus handle, run it to completion with exclusive access
and return its result" — and "must not introduce its own error type into the
result path (the closure's result is the lock's result, untouched)".  In the
trace semantics a `lock` call therefore contributes exactly one acquisition of
the mutex reference `m`, then the closure's own events, then one release, and
returns the closure's state change and result unchanged. -/
def BusMutex.lock {μ ω σ α : Type} (m : μ) (s : σ)
    (f : σ → σ × α × List (BusEvent μ ω)) : σ × α × List (BusEvent μ ω) :=
  let r := f s
  (r.1, r.2.1, BusEvent.lockAcquire m :: r.2.2 ++ [BusEvent.lockRelease m])

/-- Result of running one proxy operation: the proxy value after the call
(Rust takes `&mut self`; the source bodies never assign any field, so the
proxy after the call is the proxy before it), the guarded bus state after the
call, the returned value, and the observable event trace. -/
structure ProxyRun (P μ ω σ α : Type) where
  proxyAfter : P
  busAfter : σ
  result : α
  trace : List (BusEvent μ ω)
deriving DecidableEq

/-! ## Underlying bus models

Each structure collects the `embedded_hal` operations that `proxies.rs`
forwards to, as state-passing functions on the guarded bus state `σ` with the
bus's own error type `ε`.  They are parameters of the development: the claims
are universally quantified over the underlying bus behaviour. -/

/-- The blocking I2C operations of the underlying bus handle
(`embedded_hal::blocking::i2c::{Write, Read, WriteRead}`).  `read` and
`write_read` mutate a caller buffer, modelled by returning its new contents
next to the `Result`. -/
structure I2cBus (σ ε : Type) where
  write : Nat → List Nat → σ → σ × Except ε Unit
  read : Nat → List Nat → σ → σ × List Nat × Except ε Unit
  writeRead : Nat → List Nat → List Nat → σ → σ × List Nat × Except ε Unit

/-- The blocking SPI operations of the underlying bus handle
(`embedded_hal::blocking::spi::{Transfer, Write}`).  `transfer` mutates the
word buffer in place and on success returns it; modelled as returning the
final words on success. -/
structure SpiBus (σ ε : Type) where
  transfer : List Nat → σ → σ × Except ε (List Nat)
  write : List Nat → σ → σ × Except ε Unit

/-- The blocking CAN operations of the underlying bus handle
(`embedded_hal::blocking::can::Can`), with the bus's own frame type `F`
(the proxy re-exports it unchanged as its associated `Frame` type). -/
structure CanBus (σ ε F : Type) where
  transmit : F → σ → σ × Except ε Unit
  receive : σ → σ × Except ε F

/-- `nb::Error<E>`: a non-blocking operation either signals `WouldBlock` or a
real error of the underlying type. -/
inductive NbError (ε : Type) where
  | wouldBlock
  | other (e : ε)
deriving DecidableEq

/-! ## Operation descriptors (the payload of `BusEvent.call`) -/

/-- A call into the underlying I2C bus handle, with its arguments. -/
inductive I2cOp where
  | write (addr : Nat) (buffer : List Nat)
  | read (addr : Nat) (buffer : List Nat)
  | writeRead (addr : Nat) (bufferIn bufferOut : List Nat)
deriving DecidableEq

/-- A call into the underlying SPI bus handle, with its arguments. -/
inductive SpiOp where
  | transfer (words : List Nat)
  | write (words : List Nat)
deriving DecidableEq

/-- A call into the underlying CAN bus handle, with its arguments. -/
inductive CanOp (F : Type) where
  | transmit (frame : F)
  | receive
deriving DecidableEq

/-- A call into the underlying ADC (one poll of `bus.read(pin)`), with the
channel pin it was given. -/
inductive AdcOp (π : Type) where
  | read (pin : π)
deriving DecidableEq

/-! ## Proxy structs and their `Clone` impls (`src/proxies.rs`) -/

/-- `pub struct I2cProxy<'a, M> { pub(crate) mutex: &'a M }`: the proxy's only
field is the shared reference to the mutex, modelled as a value of the
reference type `μ`. -/
structure I2cProxy (μ : Type) where
  mutex : μ
deriving DecidableEq

/-- `impl Clone for I2cProxy`: `Self { mutex: &self.mutex }` — the clone holds
the same mutex reference; the bus is not copied. -/
def I2cProxy.clone {μ : Type} (p : I2cProxy μ) : I2cProxy μ :=
  { mutex := p.mutex }

/-- `pub struct SpiProxy<'a, M> { mutex: &'a M, _u: PhantomData<*mut ()> }`:
the mutex reference plus a zero-sized marker field (the marker's only effect
is on the `Send` auto trait, modelled separately by `RustTy`); the zero-sized
value itself is `Unit`. -/
structure SpiProxy (μ : Type) where
  mutex : μ
  marker : Unit
deriving DecidableEq

/-- `impl Clone for SpiProxy`: same mutex reference, fresh phantom marker. -/
def SpiProxy.clone {μ : Type} (p : SpiProxy μ) : SpiProxy μ :=
  { mutex := p.mutex, marker := () }

/-- `pub struct AdcProxy<'a, M> { pub(crate) mutex: &'a M }`. -/
structure AdcProxy (μ : Type) where
  mutex : μ
deriving DecidableEq

/-- `impl Clone for AdcProxy`: `Self { mutex: &self.mutex }`. -/
def AdcProxy.clone {μ : Type} (p : AdcProxy μ) : AdcProxy μ :=
  { mutex := p.mutex }

/-- `pub struct CanProxy<'a, M> { pub(crate) mutex: &'a M }`. -/
structure CanProxy (μ : Type) where
  mutex : μ
deriving DecidableEq

/-- `impl Clone for CanProxy`: `Self { mutex: &self.mutex }`. -/
def CanProxy.clone {μ : Type} (p : CanProxy μ) : CanProxy μ :=
  { mutex := p.mutex }

/-! ## The seven forwarding operations

Each is a literal translation of the corresponding method body in
`src/proxies.rs`: a single `self.mutex.lock(|bus| bus.op(args))`. -/

/-- `i2c::Write for I2cProxy`: `fn write(&mut self, addr, buffer) {
self.mutex.lock(|bus| bus.write(addr, buffer)) }`. -/
def I2cProxy.write {μ σ ε : Type} (p : I2cProxy μ) (b : I2cBus σ ε)
    (addr : Nat) (buffer : List Nat) (s : σ) :
    ProxyRun (I2cProxy μ) μ I2cOp σ (Except ε Unit) :=
  let out := BusMutex.lock p.mutex s (fun bus =>
    let r := b.write addr buffer bus
    (r.1, r.2, [BusEvent.call (I2cOp.write addr buffer)]))
  ⟨p, out.1, out.2.1, out.2.2⟩

/-- `i2c::Read for I2cProxy`: `fn read(&mut self, addr, buffer) {
self.mutex.lock(|bus| bus.read(addr, buffer)) }`; the mutated buffer's new
contents travel with the `Result`. -/
def I2cProxy.read {μ σ ε : Type} (p : I2cProxy μ) (b : I2cBus σ ε)
    (addr : Nat) (buffer : List Nat) (s : σ) :
    ProxyRun (I2cProxy μ) μ I2cOp σ (List Nat × Except ε Unit) :=
  let out := BusMutex.lock p.mutex s (fun bus =>
    let r := b.read addr buffer bus
    (r.1, r.2, [BusEvent.call (I2cOp.read addr buffer)]))
  ⟨p, out.1, out.2.1, out.2.2⟩

/-- `i2c::WriteRead for I2cProxy`: `fn write_read(&mut self, addr, buffer_in,
buffer_out) { self.mutex.lock(|bus| bus.write_read(addr, buffer_in,
buffer_out)) }`. -/
def I2cProxy.writeRead {μ σ ε : Type} (p : I2cProxy μ) (b : I2cBus σ ε)
    (addr : Nat) (bufferIn bufferOut : List Nat) (s : σ) :
    ProxyRun (I2cProxy μ) μ I2cOp σ (List Nat × Except ε Unit) :=
  let out := BusMutex.lock p.mutex s (fun bus =>
    let r := b.writeRead addr bufferIn bufferOut bus
    (r.1, r.2, [BusEvent.call (I2cOp.writeRead addr bufferIn bufferOut)]))
  ⟨p, out.1, out.2.1, out.2.2⟩

/-- `spi::Transfer<u8> for SpiProxy`: `fn transfer(&mut self, words) {
self.mutex.lock(move |bus| bus.transfer(words)) }`. -/
def SpiProxy.transfer {μ σ ε : Type} (p : SpiProxy μ) (b : SpiBus σ ε)
    (words : List Nat) (s : σ) :
    ProxyRun (SpiProxy μ) μ SpiOp σ (Except ε (List Nat)) :=
  let out := BusMutex.lock p.mutex s (fun bus =>
    let r := b.transfer words bus
    (r.1, r.2, [BusEvent.call (SpiOp.transfer words)]))
  ⟨p, out.1, out.2.1, out.2.2⟩

/-- `spi::Write<u8> for SpiProxy`: `fn write(&mut self, words) {
self.mutex.lock(|bus| bus.write(words)) }`. -/
def SpiProxy.write {μ σ ε : Type} (p : SpiProxy μ) (b : SpiBus σ ε)
    (words : List Nat) (s : σ) :
    ProxyRun (SpiProxy μ) μ SpiOp σ (Except ε Unit) :=
  let out := BusMutex.lock p.mutex s (fun bus =>
    let r := b.write words bus
    (r.1, r.2, [BusEvent.call (SpiOp.write words)]))
  ⟨p, out.1, out.2.1, out.2.2⟩

/-- `can::Can for CanProxy`: `fn transmit(&mut self, frame) {
self.mutex.lock(|bus| bus.transmit(frame)) }`. -/
def CanProxy.transmit {μ σ ε F : Type} (p : CanProxy μ) (b : CanBus σ ε F)
    (frame : F) (s : σ) :
    ProxyRun (CanProxy μ) μ (CanOp F) σ (Except ε Unit) :=
  let out := BusMutex.lock p.mutex s (fun bus =>
    let r := b.transmit frame bus
    (r.1, r.2, [BusEvent.call (CanOp.transmit frame)]))
  ⟨p, out.1, out.2.1, out.2.2⟩

/-- `can::Can for CanProxy`: `fn receive(&mut self) {
self.mutex.lock(|bus| bus.receive()) }`. -/
def CanProxy.receive {μ σ ε F : Type} (p : CanProxy μ) (b : CanBus σ ε F)
    (s : σ) : ProxyRun (CanProxy μ) μ (CanOp F) σ (Except ε F) :=
  let out := BusMutex.lock p.mutex s (fun bus =>
    let r := b.receive bus
    (r.1, r.2, [BusEvent.call (CanOp.receive)]))
  ⟨p, out.1, out.2.1, out.2.2⟩

/-! ## `AdcProxy::read` (`adc::OneShot` impl)

The body is `self.mutex.lock(|bus| nb::block!(bus.read(pin)).map_err(nb::Error::Other))`.
`nb::block!` loops on the underlying read while it returns `Err(WouldBlock)`,
and otherwise stops, unwrapping `Err(nb::Error::Other(e))` to `Err(e)` and
passing `Ok(w)` through.  The loop may diverge, so it is embedded as a
big-step relation counting the polls. -/

/-- `BlockRun f s s' r k`: starting from bus state `s`, the `nb::block!` loop
around the underlying read `f` makes exactly `k` polls, ends in state `s'`,
and produces `r` (`Except.ok w` for a completed sample, `Except.error e` for a
real error `nb::Error::Other(e)` — `WouldBlock` never terminates the loop). -/
inductive BlockRun {σ ε W : Type} (f : σ → σ × Except (NbError ε) W) :
    σ → σ → Except ε W → Nat → Prop
  | done_ok {s s' : σ} {w : W} (h : f s = (s', Except.ok w)) :
      BlockRun f s s' (Except.ok w) 1
  | done_err {s s' : σ} {e : ε} (h : f s = (s', Except.error (NbError.other e))) :
      BlockRun f s s' (Except.error e) 1
  | step {s s' s'' : σ} {r : Except ε W} {k : Nat}
      (h : f s = (s', Except.error NbError.wouldBlock))
      (hrest : BlockRun f s' s'' r k) :
      BlockRun f s s'' r (k + 1)

/-- `adc::OneShot for AdcProxy`: `fn read(&mut self, pin) -> nb::Result<Word,
Error> { self.mutex.lock(|bus| nb::block!(bus.read(pin)).map_err(nb::Error::Other)) }`.
The underlying ADC is a function `b` from the pin to a state-passing
non-blocking read.  A run relates the inputs to the observable outcome: the
lock is acquired once, the underlying read is polled `k` times (each poll one
`BusEvent.call` with the same pin), the loop's result is wrapped with
`nb::Error::Other` on the error side, and the lock is released after the loop
completes. -/
inductive AdcProxy.readRun {μ σ ε W π : Type} (p : AdcProxy μ)
    (b : π → σ → σ × Except (NbError ε) W) (pin : π) (s : σ) :
    ProxyRun (AdcProxy μ) μ (AdcOp π) σ (Except (NbError ε) W) → Prop
  | mk {s' : σ} {r : Except ε W} {k : Nat} (h : BlockRun (b pin) s s' r k) :
      AdcProxy.readRun p b pin s
        ⟨p, s', Except.mapError NbError.other r,
          BusEvent.lockAcquire p.mutex ::
            (List.replicate k (BusEvent.call (AdcOp.read pin)) ++
              [BusEvent.lockRelease p.mutex])⟩

/-! ## Interleaved executions and mutual exclusion

To state the concurrency claims, an interleaved execution of two proxy
operations is a shuffle of their two event traces, each event tagged with the
thread (`Bool`) it belongs to.  The lock abstraction's guarantee ("at most one
in-flight invocation of the closure at any time") is the predicate
`exclusiveOk`: while one thread is between its acquisition and release of the
mutex, no event of the other thread may occur. -/

/-- `Shuffle xs ys zs`: `zs` is an interleaving of `xs` and `ys` preserving
the order within each. -/
inductive Shuffle {α : Type} : List α → List α → List α → Prop
  | nil : Shuffle [] [] []
  | left {x : α} {xs ys zs : List α} :
      Shuffle xs ys zs → Shuffle (x :: xs) ys (x :: zs)
  | right {y : α} {xs ys zs : List α} :
      Shuffle xs ys zs → Shuffle xs (y :: ys) (y :: zs)

/-- Tag every event of a trace with the thread it belongs to. -/
def tag {μ ω : Type} (t : Bool) : List (BusEvent μ ω) →
    List (Bool × BusEvent μ ω)
  | [] => []
  | e :: l => (t, e) :: tag t l

/-- The lock discipline on a tagged trace.  The state records which thread
currently holds the mutex (and which mutex reference it acquired).  Outside a
critical section only an acquisition may occur; inside thread `t`'s critical
section only events of `t` may occur, ending with `t`'s release of the same
mutex.  This is exactly the spec's guarantee for proxies sharing one lock
instance: "at most one in-flight invocation of the closure at any time". -/
def exclusiveOk {μ ω : Type} [DecidableEq μ] :
    Option (Bool × μ) → List (Bool × BusEvent μ ω) → Bool
  | none, [] => true
  | some _, [] => false
  | none, (t, BusEvent.lockAcquire m) :: rest => exclusiveOk (some (t, m)) rest
  | none, (_, BusEvent.lockRelease _) :: _ => false
  | none, (_, BusEvent.call _) :: _ => false
  | some (t, m), (u, e) :: rest =>
      if u = t then
        match e with
        | BusEvent.lockRelease mr =>
            if mr = m then exclusiveOk none rest else false
        | BusEvent.lockAcquire _ => false
        | BusEvent.call _ => exclusiveOk (some (t, m)) rest
      else false

/-- A trace that is one critical section on mutex `m` around the underlying
bus calls `calls`: one acquisition, the calls, one release. -/
def IsSection {μ ω : Type} (m : μ) (calls : List ω)
    (t : List (BusEvent μ ω)) : Prop :=
  t = BusEvent.lockAcquire m ::
    (calls.map BusEvent.call ++ [BusEvent.lockRelease m])

/-- The underlying bus calls observed in a tagged trace, in order. -/
def callsOf {μ ω : Type} (zs : List (Bool × BusEvent μ ω)) : List ω :=
  zs.filterMap (fun e =>
    match e.2 with
    | BusEvent.call o => some o
    | BusEvent.lockAcquire _ => none
    | BusEvent.lockRelease _ => none)

/-! ## Rust `Send`/`Sync` model for the `SpiProxy` marker

`SpiProxy` carries `_u: PhantomData<*mut ()>` precisely so that the compiler
rejects transferring it to another thread/task.  To state this, the relevant
fragment of Rust's type grammar is embedded together with the auto-trait
rules: raw pointers are neither `Send` nor `Sync`; `PhantomData<T>` has
exactly `T`'s `Send`/`Sync` status; a shared reference `&T` is `Send` (or
`Sync`) iff `T` is `Sync`; a struct is `Send` (`Sync`) iff all its fields
are.  `param s y` stands for a type parameter assumed `Send` iff `s` and
`Sync` iff `y`. -/

/-- Fragment of the Rust type grammar needed for the proxy structs. -/
inductive RustTy where
  | mutPtrUnit
  | phantomData (t : RustTy)
  | ref (t : RustTy)
  | param (sendOk syncOk : Bool)
  | pair (a b : RustTy)
deriving DecidableEq

/-- `(isSend, isSync)` of a type, per Rust's auto-trait rules. -/
def RustTy.sendSync : RustTy → Bool × Bool
  | RustTy.mutPtrUnit => (false, false)
  | RustTy.phantomData t => t.sendSync
  | RustTy.ref t => (t.sendSync.2, t.sendSync.2)
  | RustTy.param s y => (s, y)
  | RustTy.pair a b =>
      (a.sendSync.1 && b.sendSync.1, a.sendSync.2 && b.sendSync.2)

/-- A type may be transferred to a separate concurrent execution context iff
it is `Send`. -/
def RustTy.isSend (t : RustTy) : Bool := t.sendSync.1

/-- `SpiProxy<'a, M>` as a Rust type: the fields `mutex: &'a M` and
`_u: PhantomData<*mut ()>`. -/
def SpiProxyTy (m : RustTy) : RustTy :=
  RustTy.pair (RustTy.ref m) (RustTy.phantomData RustTy.mutPtrUnit)

/-- `I2cProxy<'a, M>` as a Rust type: the sole field `mutex: &'a M` (used to
show the rejection of `SpiProxy` comes from its marker, not from the mutex
reference). -/
def I2cProxyTy (m : RustTy) : RustTy := RustTy.ref m

/-! ## Concrete mock buses for scenarios and witnesses -/

/-- Mock CAN bus for the spec's error-propagation scenario: frames and errors
are numbers, the state counts calls, and `transmit` always fails with error
code `7`. -/
def mockCanBusErr : CanBus Nat Nat Nat :=
  { transmit := fun _ s => (s + 1, Except.error 7)
    receive := fun s => (s + 1, Except.ok 0) }

/-- Mock underlying ADC read for the spec's scenario: the state is the number
of polls already made; the read reports `WouldBlock` on each of the first `n`
polls and then answers `r` on the next poll. -/
def pollNThenDone {ε W : Type} (n : Nat) (r : Except (NbError ε) W) :
    Unit → Nat → Nat × Except (NbError ε) W :=
  fun _ s =>
    if s < n then (s + 1, Except.error NbError.wouldBlock) else (s + 1, r)

/-- Mock underlying ADC read that blocks exactly once and then completes with
sample `42`. -/
def mockAdcOnceBlock : Unit → Nat → Nat × Except (NbError Nat) Nat :=
  fun _ s =>
    if s = 0 then (1, Except.error NbError.wouldBlock) else (s + 1, Except.ok 42)

/-- Trivial mock I2C bus used in witnesses: counts calls, always succeeds,
leaves buffers as given. -/
def mockI2cBus : I2cBus Nat Nat :=
  { write := fun _ _ s => (s + 1, Except.ok ())
    read := fun _ buffer s => (s + 1, buffer, Except.ok ())
    writeRead := fun _ _ bufferOut s => (s + 1, bufferOut, Except.ok ()) }

/-! ## Helper lemmas about shuffles, tagging and the lock discipline -/

lemma shuffle_nil_left {α : Type} {ys zs : List α} (h : Shuffle [] ys zs) :
    zs = ys := by
  generalize hx : ([] : List α) = xs at h
  induction h with
  | nil => rfl
  | left h ih => simp at hx
  | right h ih => rw [ih hx]

lemma shuffle_nil_right {α : Type} {xs zs : List α} (h : Shuffle xs [] zs) :
    zs = xs := by
  generalize hy : ([] : List α) = ys at h
  induction h with
  | nil => rfl
  | left h ih => rw [ih hy]
  | right h ih => simp at hy

lemma shuffle_swap {α : Type} {xs ys zs : List α} (h : Shuffle xs ys zs) :
    Shuffle ys xs zs := by
  induction h with
  | nil => exact Shuffle.nil
  | left h ih => exact Shuffle.right ih
  | right h ih => exact Shuffle.left ih

lemma shuffle_self_left {α : Type} (xs : List α) : Shuffle xs [] xs := by
  induction xs with
  | nil => exact Shuffle.nil
  | cons x xs ih => exact Shuffle.left ih

lemma shuffle_right_first {α : Type} (xs ys : List α) :
    Shuffle xs ys (ys ++ xs) := by
  induction ys with
  | nil => simpa using shuffle_self_left xs
  | cons y ys ih => exact Shuffle.right ih

lemma shuffle_prepend_left {α : Type} {xs ys zs : List α} (ws : List α)
    (h : Shuffle xs ys zs) : Shuffle (ws ++ xs) ys (ws ++ zs) := by
  induction ws with
  | nil => simpa using h
  | cons w ws ih => exact Shuffle.left ih

lemma tag_append {μ ω : Type} (t : Bool) (l1 l2 : List (BusEvent μ ω)) :
    tag t (l1 ++ l2) = tag t l1 ++ tag t l2 := by
  induction l1 with
  | nil => rfl
  | cons e l ih => simp [tag, ih]

lemma mem_tag {μ ω : Type} {t : Bool} {x : Bool × BusEvent μ ω} :
    ∀ {l : List (BusEvent μ ω)}, x ∈ tag t l → x.1 = t := by
  intro l
  induction l with
  | nil => intro h; simp [tag] at h
  | cons e l ih =>
      intro h
      rcases List.mem_cons.mp h with h' | h'
      · simp [h']
      · exact ih h'

/-- Core exclusion lemma: while thread `b` holds mutex `m` and still has to
run its calls and its release, no event of the other thread can be scheduled,
so any exclusion-respecting shuffle finishes thread `b`'s section first. -/
lemma shuffle_locked {μ ω : Type} [DecidableEq μ] (b : Bool) (m : μ) :
    ∀ (calls : List ω) (ys zs : List (Bool × BusEvent μ ω)),
      (∀ x ∈ ys, x.1 = !b) →
      Shuffle (tag b (calls.map BusEvent.call ++ [BusEvent.lockRelease m])) ys zs →
      exclusiveOk (some (b, m)) zs = true →
      zs = tag b (calls.map BusEvent.call ++ [BusEvent.lockRelease m]) ++ ys := by
  intro calls
  induction calls with
  | nil =>
      intro ys zs hys hs he
      simp only [List.map_nil, List.nil_append, tag] at hs ⊢
      cases hs with
      | left h' =>
          rw [shuffle_nil_left h']
          rfl
      | right h' =>
          rename_i y ys' zs'
          have hy : y.1 = !b := hys y (List.mem_cons_self _ _)
          obtain ⟨u, e⟩ := y
          simp only at hy
          subst hy
          simp [exclusiveOk, Bool.not_ne_self] at he
  | cons c cs ih =>
      intro ys zs hys hs he
      simp only [List.map_cons, List.cons_append, tag] at hs ⊢
      cases hs with
      | left h' =>
          have hrec := ih ys _ hys h' (by simpa [exclusiveOk] using he)
          rw [hrec]
          rfl
      | right h' =>
          rename_i y ys' zs'
          have hy : y.1 = !b := hys y (List.mem_cons_self _ _)
          obtain ⟨u, e⟩ := y
          simp only at hy
          subst hy
          simp [exclusiveOk, Bool.not_ne_self] at he

/-- Any exclusion-respecting interleaving of two critical sections on the same
mutex is one of the two sequential orders: the first thread to acquire the
lock runs its entire section before the other starts. -/
lemma section_shuffle_sequential {μ ω : Type} [DecidableEq μ] {m : μ}
    {c1 c2 : List ω} {t1 t2 : List (BusEvent μ ω)}
    {zs : List (Bool × BusEvent μ ω)}
    (h1 : IsSection m c1 t1) (h2 : IsSection m c2 t2)
    (hs : Shuffle (tag false t1) (tag true t2) zs)
    (he : exclusiveOk none zs = true) :
    zs = tag false t1 ++ tag true t2 ∨ zs = tag true t2 ++ tag false t1 := by
  rw [IsSection] at h1 h2
  subst h1; subst h2
  simp only [tag] at hs ⊢
  cases hs with
  | left h' =>
      left
      have hz := shuffle_locked false m c1 _ _
        (by intro x hx
            rcases List.mem_cons.mp hx with h'' | h''
            · simp [h'']
            · simpa using mem_tag h'')
        h' (by simpa [exclusiveOk] using he)
      rw [hz]
      rfl
  | right h' =>
      right
      have hz := shuffle_locked true m c2 _ _
        (by intro x hx
            rcases List.mem_cons.mp hx with h'' | h''
            · simp [h'']
            · simpa using mem_tag h'')
        (shuffle_swap h') (by simpa [exclusiveOk] using he)
      rw [hz]
      rfl

lemma exclusiveOk_locked_calls {μ ω : Type} [DecidableEq μ] (b : Bool) (m : μ) :
    ∀ (c : List ω) (rest : List (Bool × BusEvent μ ω)),
      exclusiveOk (some (b, m))
        (tag b (c.map BusEvent.call ++ [BusEvent.lockRelease m]) ++ rest) =
      exclusiveOk none rest := by
  intro c
  induction c with
  | nil => intro rest; simp [tag, exclusiveOk]
  | cons d ds ih =>
      intro rest
      simp only [List.map_cons, List.cons_append, tag, List.cons_append]
      simp [exclusiveOk, ih rest]

/-- A whole critical section at the head of a tagged trace passes the lock
discipline and leaves it back in the unlocked state. -/
lemma exclusiveOk_tag_section {μ ω : Type} [DecidableEq μ] (b : Bool) (m : μ)
    (c : List ω) (rest : List (Bool × BusEvent μ ω)) :
    exclusiveOk none
      (tag b (BusEvent.lockAcquire m ::
        (c.map BusEvent.call ++ [BusEvent.lockRelease m])) ++ rest) =
    exclusiveOk none rest := by
  simp only [tag, List.cons_append]
  rw [show exclusiveOk none ((b, BusEvent.lockAcquire m) ::
      (tag b (c.map BusEvent.call ++ [BusEvent.lockRelease m]) ++ rest)) =
      exclusiveOk (some (b, m))
      (tag b (c.map BusEvent.call ++ [BusEvent.lockRelease m]) ++ rest) from rfl]
  exact exclusiveOk_locked_calls b m c rest

/-- A single tagged critical section on its own passes the lock discipline. -/
lemma exclusiveOk_tag_section_only {μ ω : Type} [DecidableEq μ] (b : Bool)
    (m : μ) (c : List ω) :
    exclusiveOk none
      (tag b (BusEvent.lockAcquire m ::
        (c.map BusEvent.call ++ [BusEvent.lockRelease m]))) = true := by
  have h := exclusiveOk_tag_section b m c []
  simpa [exclusiveOk] using h

lemma callsOf_append {μ ω : Type} (xs ys : List (Bool × BusEvent μ ω)) :
    callsOf (xs ++ ys) = callsOf xs ++ callsOf ys := by
  simp [callsOf]

lemma callsOf_tag_calls {μ ω : Type} (b : Bool) (m : μ) :
    ∀ (c : List ω),
      callsOf (tag b (c.map BusEvent.call ++ [BusEvent.lockRelease m])) = c := by
  intro c
  induction c with
  | nil => simp [tag, callsOf]
  | cons d ds ih =>
      simp only [List.map_cons, List.cons_append, tag]
      simp only [callsOf, List.filterMap_cons] at ih ⊢
      simpa using ih

/-- The underlying bus calls observed from one tagged critical section are
exactly its call list. -/
lemma callsOf_tag_section {μ ω : Type} (b : Bool) (m : μ) (c : List ω) :
    callsOf (tag b (BusEvent.lockAcquire m ::
      (c.map BusEvent.call ++ [BusEvent.lockRelease m]))) = c := by
  simp only [tag, callsOf, List.filterMap_cons]
  simpa [callsOf] using callsOf_tag_calls b m c

/-! ## Helper lemmas about the `nb::block!` loop -/

/-- Any error the block loop finishes with was produced, as
`nb::Error::Other`, by the underlying read itself (on its last poll). -/
lemma blockRun_error_src {σ ε W : Type} {f : σ → σ × Except (NbError ε) W}
    {s s' : σ} {r : Except ε W} {k : Nat} (h : BlockRun f s s' r k) :
    ∀ e, r = Except.error e →
      ∃ s0, f s0 = (s', Except.error (NbError.other e)) := by
  induction h with
  | done_ok hf => intro e he; simp at he
  | done_err hf =>
      intro e he
      injection he with h1
      subst h1
      exact ⟨_, hf⟩
  | step hf hrest ih => exact ih

/-- Against a mock ADC that blocks on its first `n` polls and then answers
`r ≠ WouldBlock`, every run of the block loop started at poll count `j ≤ n`
makes exactly `n - j + 1` polls and finishes with `r`. -/
lemma blockRun_pollN {ε W : Type} {n : Nat} {r : Except (NbError ε) W}
    (hr : r ≠ Except.error NbError.wouldBlock) {j s' : Nat}
    {r' : Except ε W} {k : Nat}
    (h : BlockRun (pollNThenDone n r ()) j s' r' k) :
    j ≤ n → (k = n - j + 1 ∧ s' = n + 1 ∧
      Except.mapError NbError.other r' = r) := by
  induction h with
  | done_ok hf =>
      intro hj
      simp only [pollNThenDone] at hf
      split at hf
      · simp at hf
      · rw [Prod.mk.injEq] at hf
        obtain ⟨h1, h2⟩ := hf
        have hn : _ = n := Nat.le_antisymm hj (by omega)
        subst hn
        refine ⟨by omega, by omega, ?_⟩
        simp [Except.mapError, h2]
  | done_err hf =>
      intro hj
      simp only [pollNThenDone] at hf
      split at hf
      · simp at hf
      · rw [Prod.mk.injEq] at hf
        obtain ⟨h1, h2⟩ := hf
        have hn : _ = n := Nat.le_antisymm hj (by omega)
        subst hn
        refine ⟨by omega, by omega, ?_⟩
        simp [Except.mapError, h2]
  | step hf hrest ih =>
      intro hj
      simp only [pollNThenDone] at hf
      split at hf
      · rw [Prod.mk.injEq] at hf
        obtain ⟨h1, h2⟩ := hf
        subst h1
        rename_i hlt
        obtain ⟨hk, hs, hm⟩ := ih (by omega)
        exact ⟨by omega, hs, hm⟩
      · rw [Prod.mk.injEq] at hf
        exact absurd hf.2 hr

/-- Existence half for the same mock: from poll count `j` with `d = n - j`
polls still blocking, the loop completes after `d + 1` polls. -/
lemma blockRun_pollN_exists {ε W : Type} (n : Nat) (r : Except (NbError ε) W)
    (hr : r ≠ Except.error NbError.wouldBlock) :
    ∀ (d j : Nat), j + d = n →
      ∃ s' r', BlockRun (pollNThenDone n r ()) j s' r' (d + 1) ∧
        Except.mapError NbError.other r' = r := by
  intro d
  induction d with
  | zero =>
      intro j hj
      have hjn : j = n := by omega
      subst hjn
      cases r with
      | ok w =>
          refine ⟨j + 1, Except.ok w, BlockRun.done_ok ?_, by simp [Except.mapError]⟩
          simp [pollNThenDone]
      | error x =>
          cases x with
          | wouldBlock => exact absurd rfl hr
          | other e =>
              refine ⟨j + 1, Except.error e, BlockRun.done_err ?_,
                by simp [Except.mapError]⟩
              simp [pollNThenDone]
  | succ d ihd =>
      intro j hj
      have hlt : j < n := by omega
      obtain ⟨s', r', hb, hm⟩ := ihd (j + 1) (by omega)
      refine ⟨s', r', BlockRun.step ?_ hb, hm⟩
      simp [pollNThenDone, hlt]

/-! ## Claim theorems -/

/-- C1: for every proxy operation (I2cProxy::write, I2cProxy::read,
I2cProxy::write_read, SpiProxy::transfer, SpiProxy::write, CanProxy::transmit,
CanProxy::receive), one call on the proxy performs exactly one lock
acquisition and exactly one corresponding call of the same operation on the
underlying bus handle, with all arguments (address, buffers, words, frame)
passed through unchanged: the whole run equals one application of the
underlying operation to the unchanged arguments, and its trace is exactly one
acquisition of the proxy's mutex, one underlying call carrying those
arguments, and one release. -/
theorem C1_one_lock_one_call :
    (∀ (μ σ ε : Type) (p : I2cProxy μ) (b : I2cBus σ ε) (addr : Nat)
        (buffer : List Nat) (s : σ),
      I2cProxy.write p b addr buffer s =
        ⟨p, (b.write addr buffer s).1, (b.write addr buffer s).2,
          [BusEvent.lockAcquire p.mutex,
            BusEvent.call (I2cOp.write addr buffer),
            BusEvent.lockRelease p.mutex]⟩) ∧
    (∀ (μ σ ε : Type) (p : I2cProxy μ) (b : I2cBus σ ε) (addr : Nat)
        (buffer : List Nat) (s : σ),
      I2cProxy.read p b addr buffer s =
        ⟨p, (b.read addr buffer s).1, (b.read addr buffer s).2,
          [BusEvent.lockAcquire p.mutex,
            BusEvent.call (I2cOp.read addr buffer),
            BusEvent.lockRelease p.mutex]⟩) ∧
    (∀ (μ σ ε : Type) (p : I2cProxy μ) (b : I2cBus σ ε) (addr : Nat)
        (bufferIn bufferOut : List Nat) (s : σ),
      I2cProxy.writeRead p b addr bufferIn bufferOut s =
        ⟨p, (b.writeRead addr bufferIn bufferOut s).1,
          (b.writeRead addr bufferIn bufferOut s).2,
          [BusEvent.lockAcquire p.mutex,
            BusEvent.call (I2cOp.writeRead addr bufferIn bufferOut),
            BusEvent.lockRelease p.mutex]⟩) ∧
    (∀ (μ σ ε : Type) (p : SpiProxy μ) (b : SpiBus σ ε) (words : List Nat)
        (s : σ),
      SpiProxy.transfer p b words s =
        ⟨p, (b.transfer words s).1, (b.transfer words s).2,
          [BusEvent.lockAcquire p.mutex, BusEvent.call (SpiOp.transfer words),
            BusEvent.lockRelease p.mutex]⟩) ∧
    (∀ (μ σ ε : Type) (p : SpiProxy μ) (b : SpiBus σ ε) (words : List Nat)
        (s : σ),
      SpiProxy.write p b words s =
        ⟨p, (b.write words s).1, (b.write words s).2,
          [BusEvent.lockAcquire p.mutex, BusEvent.call (SpiOp.write words),
            BusEvent.lockRelease p.mutex]⟩) ∧
    (∀ (μ σ ε F : Type) (p : CanProxy μ) (b : CanBus σ ε F) (frame : F)
        (s : σ),
      CanProxy.transmit p b frame s =
        ⟨p, (b.transmit frame s).1, (b.transmit frame s).2,
          [BusEvent.lockAcquire p.mutex, BusEvent.call (CanOp.transmit frame),
            BusEvent.lockRelease p.mutex]⟩) ∧
    (∀ (μ σ ε F : Type) (p : CanProxy μ) (b : CanBus σ ε F) (s : σ),
      CanProxy.receive p b s =
        ⟨p, (b.receive s).1, (b.receive s).2,
          [BusEvent.lockAcquire p.mutex, BusEvent.call CanOp.receive,
            BusEvent.lockRelease p.mutex]⟩) := by
  refine ⟨?_, ?_, ?_, ?_, ?_, ?_, ?_⟩ <;> intros <;> rfl

/-- C2 counterexample: `AdcProxy::read` is a proxy operation whose returned
value is not identical to the result the underlying bus operation produced.
On a mock ADC whose read produces `Err(WouldBlock)` at the current state, the
proxy suppresses that result, retries (two underlying calls in the trace) and
returns `Ok(42)` — so "for every proxy operation ... no transformation,
retry, or suppression" fails at this input. -/
theorem C2_counterexample_adc :
    AdcProxy.readRun (⟨0⟩ : AdcProxy Nat) mockAdcOnceBlock () 0
      ⟨⟨0⟩, 2, Except.ok 42,
        [BusEvent.lockAcquire 0, BusEvent.call (AdcOp.read ()),
          BusEvent.call (AdcOp.read ()), BusEvent.lockRelease 0]⟩ ∧
    (mockAdcOnceBlock () 0).2 = Except.error NbError.wouldBlock ∧
    (Except.ok 42 : Except (NbError Nat) Nat) ≠ (mockAdcOnceBlock () 0).2 := by
  refine ⟨?_, rfl, by simp [mockAdcOnceBlock]⟩
  have h1 : mockAdcOnceBlock () 0 = (1, Except.error NbError.wouldBlock) := rfl
  have h2 : mockAdcOnceBlock () 1 = (2, Except.ok 42) := rfl
  exact AdcProxy.readRun.mk (BlockRun.step h1 (BlockRun.done_ok h2))

/-- C2 (amended): for the seven forwarding operations — I2cProxy::write/
read/write_read, SpiProxy::transfer/write, CanProxy::transmit/receive — the
value returned by the proxy (including mutated buffer contents) is identical
to the underlying result, with no transformation, wrapping, retry, or
suppression; the proxy's error type is the underlying bus's own error type
`ε` by construction; and in particular CanProxy::transmit on a mock bus whose
transmit fails with error code 7 returns exactly that error.  (AdcProxy::read
is excluded: as the counterexample shows, it retries WouldBlock internally
and wraps its errors in nb::Error::Other.) -/
theorem C2_result_passthrough :
    (∀ (μ σ ε : Type) (p : I2cProxy μ) (b : I2cBus σ ε) (addr : Nat)
        (buffer : List Nat) (s : σ),
      (I2cProxy.write p b addr buffer s).result = (b.write addr buffer s).2) ∧
    (∀ (μ σ ε : Type) (p : I2cProxy μ) (b : I2cBus σ ε) (addr : Nat)
        (buffer : List Nat) (s : σ),
      (I2cProxy.read p b addr buffer s).result = (b.read addr buffer s).2) ∧
    (∀ (μ σ ε : Type) (p : I2cProxy μ) (b : I2cBus σ ε) (addr : Nat)
        (bufferIn bufferOut : List Nat) (s : σ),
      (I2cProxy.writeRead p b addr bufferIn bufferOut s).result =
        (b.writeRead addr bufferIn bufferOut s).2) ∧
    (∀ (μ σ ε : Type) (p : SpiProxy μ) (b : SpiBus σ ε) (words : List Nat)
        (s : σ),
      (SpiProxy.transfer p b words s).result = (b.transfer words s).2) ∧
    (∀ (μ σ ε : Type) (p : SpiProxy μ) (b : SpiBus σ ε) (words : List Nat)
        (s : σ),
      (SpiProxy.write p b words s).result = (b.write words s).2) ∧
    (∀ (μ σ ε F : Type) (p : CanProxy μ) (b : CanBus σ ε F) (frame : F)
        (s : σ),
      (CanProxy.transmit p b frame s).result = (b.transmit frame s).2) ∧
    (∀ (μ σ ε F : Type) (p : CanProxy μ) (b : CanBus σ ε F) (s : σ),
      (CanProxy.receive p b s).result = (b.receive s).2) ∧
    (CanProxy.transmit (⟨0⟩ : CanProxy Nat) mockCanBusErr 5 0).result =
      Except.error 7 := by
  refine ⟨?_, ?_, ?_, ?_, ?_, ?_, ?_, ?_⟩ <;> intros <;> rfl

/-- C3: AdcProxy::read does not return until the underlying one-shot read
reports completion.  For every underlying ADC that reports WouldBlock `n`
times and then completes with `r`, every run of the proxy's read polls the
underlying read exactly `n + 1` times, all inside a single lock acquisition
whose release follows the completing poll, and returns the completed
response; moreover such a run exists. -/
theorem C3_adc_polls_n_plus_one :
    ∀ (μ ε W : Type) (p : AdcProxy μ) (n : Nat) (r : Except (NbError ε) W),
      r ≠ Except.error NbError.wouldBlock →
      ((∀ run, AdcProxy.readRun p (pollNThenDone n r) () 0 run →
          run.trace = BusEvent.lockAcquire p.mutex ::
            (List.replicate (n + 1) (BusEvent.call (AdcOp.read ())) ++
              [BusEvent.lockRelease p.mutex]) ∧
          run.result = r) ∧
        ∃ run, AdcProxy.readRun p (pollNThenDone n r) () 0 run) := by
  intro μ ε W p n r hr
  constructor
  · intro run hrun
    cases hrun with
    | mk h =>
        obtain ⟨hk, hs, hm⟩ := blockRun_pollN hr h (Nat.zero_le n)
        subst hk
        constructor
        · simp
        · simpa using hm
  · obtain ⟨s', r', hb, hm⟩ := blockRun_pollN_exists n r hr n 0 (by omega)
    exact ⟨_, AdcProxy.readRun.mk hb⟩

/-- Witness for C3: the mock ADC that blocks twice and then completes with
`Ok 42`, run through the proxy from poll count 0 — the hypothesis
`r ≠ Err(WouldBlock)` is discharged by computation. -/
theorem C3_adc_polls_n_plus_one_witness :
    (Except.ok 42 : Except (NbError Nat) Nat) ≠
        Except.error NbError.wouldBlock ∧
    ((∀ run, AdcProxy.readRun (⟨0⟩ : AdcProxy Nat)
          (pollNThenDone 2 (Except.ok 42 : Except (NbError Nat) Nat)) () 0 run →
        run.trace = BusEvent.lockAcquire (⟨0⟩ : AdcProxy Nat).mutex ::
          (List.replicate (2 + 1) (BusEvent.call (AdcOp.read ())) ++
            [BusEvent.lockRelease (⟨0⟩ : AdcProxy Nat).mutex]) ∧
        run.result = (Except.ok 42 : Except (NbError Nat) Nat)) ∧
      ∃ run, AdcProxy.readRun (⟨0⟩ : AdcProxy Nat)
        (pollNThenDone 2 (Except.ok 42 : Except (NbError Nat) Nat)) () 0 run) :=
  ⟨by simp,
    C3_adc_polls_n_plus_one Nat Nat Nat ⟨0⟩ 2 (Except.ok 42) (by simp)⟩

/-- C4: every proxy operation's trace is one complete critical section on the
proxy's own mutex (conjuncts 1–8, covering the seven forwarding operations
and AdcProxy::read), and any exclusion-respecting interleaving of two
critical sections on the same lock instance is one of the two sequential
orders — so two underlying-bus operations never execute concurrently, and
the observed bus calls are exactly the two call sequences concatenated in
lock-acquisition order (conjunct 9). -/
theorem C4_mutual_exclusion_linearizable :
    (∀ (μ σ ε : Type) (p : I2cProxy μ) (b : I2cBus σ ε) (addr : Nat)
        (buffer : List Nat) (s : σ),
      IsSection p.mutex [I2cOp.write addr buffer]
        (I2cProxy.write p b addr buffer s).trace) ∧
    (∀ (μ σ ε : Type) (p : I2cProxy μ) (b : I2cBus σ ε) (addr : Nat)
        (buffer : List Nat) (s : σ),
      IsSection p.mutex [I2cOp.read addr buffer]
        (I2cProxy.read p b addr buffer s).trace) ∧
    (∀ (μ σ ε : Type) (p : I2cProxy μ) (b : I2cBus σ ε) (addr : Nat)
        (bufferIn bufferOut : List Nat) (s : σ),
      IsSection p.mutex [I2cOp.writeRead addr bufferIn bufferOut]
        (I2cProxy.writeRead p b addr bufferIn bufferOut s).trace) ∧
    (∀ (μ σ ε : Type) (p : SpiProxy μ) (b : SpiBus σ ε) (words : List Nat)
        (s : σ),
      IsSection p.mutex [SpiOp.transfer words]
        (SpiProxy.transfer p b words s).trace) ∧
    (∀ (μ σ ε : Type) (p : SpiProxy μ) (b : SpiBus σ ε) (words : List Nat)
        (s : σ),
      IsSection p.mutex [SpiOp.write words] (SpiProxy.write p b words s).trace) ∧
    (∀ (μ σ ε F : Type) (p : CanProxy μ) (b : CanBus σ ε F) (frame : F)
        (s : σ),
      IsSection p.mutex [CanOp.transmit frame]
        (CanProxy.transmit p b frame s).trace) ∧
    (∀ (μ σ ε F : Type) (p : CanProxy μ) (b : CanBus σ ε F) (s : σ),
      IsSection p.mutex [CanOp.receive] (CanProxy.receive p b s).trace) ∧
    (∀ (μ σ ε W π : Type) (p : AdcProxy μ)
        (b : π → σ → σ × Except (NbError ε) W) (pin : π) (s : σ)
        (run : ProxyRun (AdcProxy μ) μ (AdcOp π) σ (Except (NbError ε) W)),
      AdcProxy.readRun p b pin s run →
      ∃ k, IsSection p.mutex (List.replicate k (AdcOp.read pin)) run.trace) ∧
    (∀ (μ ω : Type) [DecidableEq μ] (m : μ) (c1 c2 : List ω)
        (t1 t2 : List (BusEvent μ ω)) (zs : List (Bool × BusEvent μ ω)),
      IsSection m c1 t1 → IsSection m c2 t2 →
      Shuffle (tag false t1) (tag true t2) zs →
      exclusiveOk none zs = true →
      ((zs = tag false t1 ++ tag true t2 ∧ callsOf zs = c1 ++ c2) ∨
        (zs = tag true t2 ++ tag false t1 ∧ callsOf zs = c2 ++ c1))) := by
  refine ⟨?_, ?_, ?_, ?_, ?_, ?_, ?_, ?_, ?_⟩
  · intros; rfl
  · intros; rfl
  · intros; rfl
  · intros; rfl
  · intros; rfl
  · intros; rfl
  · intros; rfl
  · intro μ σ ε W π p b pin s run hrun
    cases hrun with
    | mk h =>
        rename_i s' r k
        exact ⟨k, by simp [IsSection, List.map_replicate]⟩
  · intro μ ω inst m c1 c2 t1 t2 zs h1 h2 hs he
    rcases section_shuffle_sequential h1 h2 hs he with hz | hz
    · rw [IsSection] at h1 h2
      subst h1; subst h2
      exact Or.inl ⟨hz, by
        rw [hz, callsOf_append, callsOf_tag_section, callsOf_tag_section]⟩
    · rw [IsSection] at h1 h2
      subst h1; subst h2
      exact Or.inr ⟨hz, by
        rw [hz, callsOf_append, callsOf_tag_section, callsOf_tag_section]⟩

/-- Witness for C4's interleaving conjunct: two concrete critical sections on
mutex `0` (calls `1` and `2`), shuffled in the sequential order, pass the
lock discipline and linearize with thread `false` first. -/
theorem C4_mutual_exclusion_linearizable_witness :
    ([((false : Bool), BusEvent.lockAcquire (0 : Nat)),
        (false, BusEvent.call (1 : Nat)), (false, BusEvent.lockRelease 0),
        (true, BusEvent.lockAcquire 0), (true, BusEvent.call 2),
        (true, BusEvent.lockRelease 0)] =
      tag false [BusEvent.lockAcquire 0, BusEvent.call 1,
        BusEvent.lockRelease 0] ++
      tag true [BusEvent.lockAcquire 0, BusEvent.call 2,
        BusEvent.lockRelease 0] ∧
      callsOf [((false : Bool), BusEvent.lockAcquire (0 : Nat)),
        (false, BusEvent.call 1), (false, BusEvent.lockRelease 0),
        (true, BusEvent.lockAcquire 0), (true, BusEvent.call 2),
        (true, BusEvent.lockRelease 0)] = [1] ++ [2]) ∨
    ([((false : Bool), BusEvent.lockAcquire (0 : Nat)),
        (false, BusEvent.call 1), (false, BusEvent.lockRelease 0),
        (true, BusEvent.lockAcquire 0), (true, BusEvent.call 2),
        (true, BusEvent.lockRelease 0)] =
      tag true [BusEvent.lockAcquire 0, BusEvent.call 2,
        BusEvent.lockRelease 0] ++
      tag false [BusEvent.lockAcquire 0, BusEvent.call 1,
        BusEvent.lockRelease 0] ∧
      callsOf [((false : Bool), BusEvent.lockAcquire (0 : Nat)),
        (false, BusEvent.call 1), (false, BusEvent.lockRelease 0),
        (true, BusEvent.lockAcquire 0), (true, BusEvent.call 2),
        (true, BusEvent.lockRelease 0)] = [2] ++ [1]) :=
  C4_mutual_exclusion_linearizable.2.2.2.2.2.2.2.2 Nat Nat 0 [1] [2]
    [BusEvent.lockAcquire 0, BusEvent.call 1, BusEvent.lockRelease 0]
    [BusEvent.lockAcquire 0, BusEvent.call 2, BusEvent.lockRelease 0]
    [((false : Bool), BusEvent.lockAcquire (0 : Nat)),
      (false, BusEvent.call 1), (false, BusEvent.lockRelease 0),
      (true, BusEvent.lockAcquire 0), (true, BusEvent.call 2),
      (true, BusEvent.lockRelease 0)]
    rfl rfl
    (Shuffle.left (Shuffle.left (Shuffle.left
      (Shuffle.right (Shuffle.right (Shuffle.right Shuffle.nil))))))
    rfl

/-- C5: transferring or sharing an `SpiProxy` across a separate concurrent
execution context is rejected at the type level, before any bus access can
occur: for every mutex type `M`, `SpiProxy<'a, M>` is not `Send` under
Rust's auto-trait rules, because its `PhantomData<*mut ()>` marker field
alone is not `Send` — so the rejection is a compile-time property of the
type, not a runtime failure. -/
theorem C5_spiproxy_not_send :
    (∀ m : RustTy, RustTy.isSend (SpiProxyTy m) = false) ∧
    RustTy.isSend (RustTy.phantomData RustTy.mutPtrUnit) = false := by
  constructor
  · intro m
    simp [SpiProxyTy, RustTy.isSend, RustTy.sendSync]
  · rfl

/-- C6: I2cProxy::write_read executes the entire multi-phase write-then-read
sequence inside a single lock hold — its trace is one acquisition wrapping
exactly one underlying write_read call and one release — and consequently in
any exclusion-respecting interleaving with any other critical section on the
same lock, the other sharer's events fall entirely before the acquisition or
entirely after the release, never between the write phase and the read
phase. -/
theorem C6_write_read_single_lock_hold :
    (∀ (μ σ ε : Type) (p : I2cProxy μ) (b : I2cBus σ ε) (addr : Nat)
        (bufferIn bufferOut : List Nat) (s : σ),
      (I2cProxy.writeRead p b addr bufferIn bufferOut s).trace =
        [BusEvent.lockAcquire p.mutex,
          BusEvent.call (I2cOp.writeRead addr bufferIn bufferOut),
          BusEvent.lockRelease p.mutex]) ∧
    (∀ (μ : Type) [DecidableEq μ] (σ ε : Type) (p : I2cProxy μ)
        (b : I2cBus σ ε) (addr : Nat) (bufferIn bufferOut : List Nat) (s : σ)
        (c2 : List I2cOp) (t2 : List (BusEvent μ I2cOp))
        (zs : List (Bool × BusEvent μ I2cOp)),
      IsSection p.mutex c2 t2 →
      Shuffle
        (tag false (I2cProxy.writeRead p b addr bufferIn bufferOut s).trace)
        (tag true t2) zs →
      exclusiveOk none zs = true →
      (zs = tag false (I2cProxy.writeRead p b addr bufferIn bufferOut s).trace
          ++ tag true t2 ∨
        zs = tag true t2 ++
          tag false (I2cProxy.writeRead p b addr bufferIn bufferOut s).trace)) := by
  constructor
  · intros; rfl
  · intro μ inst σ ε p b addr bufferIn bufferOut s c2 t2 zs h2 hs he
    exact @section_shuffle_sequential μ I2cOp inst p.mutex
      [I2cOp.writeRead addr bufferIn bufferOut] c2
      (I2cProxy.writeRead p b addr bufferIn bufferOut s).trace t2 zs
      rfl h2 hs he

/-- Witness for C6's interleaving conjunct: a concrete write_read by one
driver shuffled sequentially with a concrete read section by another sharer
of mutex `0`. -/
theorem C6_write_read_single_lock_hold_witness :
    ((tag false (I2cProxy.writeRead (⟨0⟩ : I2cProxy Nat) mockI2cBus 1 [2] [3]
          0).trace ++
        tag true [BusEvent.lockAcquire 0, BusEvent.call (I2cOp.read 9 []),
          BusEvent.lockRelease 0]) =
      tag false (I2cProxy.writeRead (⟨0⟩ : I2cProxy Nat) mockI2cBus 1 [2] [3]
          0).trace ++
        tag true [BusEvent.lockAcquire 0, BusEvent.call (I2cOp.read 9 []),
          BusEvent.lockRelease 0] ∨
      (tag false (I2cProxy.writeRead (⟨0⟩ : I2cProxy Nat) mockI2cBus 1 [2] [3]
          0).trace ++
        tag true [BusEvent.lockAcquire 0, BusEvent.call (I2cOp.read 9 []),
          BusEvent.lockRelease 0]) =
      tag true [BusEvent.lockAcquire 0, BusEvent.call (I2cOp.read 9 []),
          BusEvent.lockRelease 0] ++
        tag false (I2cProxy.writeRead (⟨0⟩ : I2cProxy Nat) mockI2cBus 1 [2] [3]
          0).trace) :=
  C6_write_read_single_lock_hold.2 Nat Nat Nat ⟨0⟩ mockI2cBus 1 [2] [3] 0
    [I2cOp.read 9 []]
    [BusEvent.lockAcquire 0, BusEvent.call (I2cOp.read 9 []),
      BusEvent.lockRelease 0]
    (tag false (I2cProxy.writeRead (⟨0⟩ : I2cProxy Nat) mockI2cBus 1 [2] [3]
        0).trace ++
      tag true [BusEvent.lockAcquire 0, BusEvent.call (I2cOp.read 9 []),
        BusEvent.lockRelease 0])
    rfl
    (shuffle_swap (shuffle_right_first _ _))
    rfl

/-- C7: CanProxy::transmit and CanProxy::receive each perform their own
independent lock acquisition (each trace is its own complete critical
section), the receive result — the bus's own frame — is passed through
unchanged (the associated Frame type is the bus's frame type `F`), and the
two operations are not mutually atomic: between a driver's transmit and its
subsequent receive, any other critical section on the same lock can be
scheduled in full while respecting the lock discipline. -/
theorem C7_can_independent_locks :
    (∀ (μ σ ε F : Type) (p : CanProxy μ) (b : CanBus σ ε F) (frame : F)
        (s : σ),
      (CanProxy.transmit p b frame s).trace =
        [BusEvent.lockAcquire p.mutex, BusEvent.call (CanOp.transmit frame),
          BusEvent.lockRelease p.mutex]) ∧
    (∀ (μ σ ε F : Type) (p : CanProxy μ) (b : CanBus σ ε F) (s : σ),
      (CanProxy.receive p b s).trace =
        [BusEvent.lockAcquire p.mutex, BusEvent.call CanOp.receive,
          BusEvent.lockRelease p.mutex] ∧
      (CanProxy.receive p b s).result = (b.receive s).2) ∧
    (∀ (μ : Type) [DecidableEq μ] (σ ε F : Type) (p : CanProxy μ)
        (b : CanBus σ ε F) (frame : F) (s s' : σ) (c2 : List (CanOp F))
        (t2 : List (BusEvent μ (CanOp F))),
      IsSection p.mutex c2 t2 →
      ∃ zs, Shuffle
          (tag false ((CanProxy.transmit p b frame s).trace ++
            (CanProxy.receive p b s').trace))
          (tag true t2) zs ∧
        exclusiveOk none zs = true ∧
        zs = tag false (CanProxy.transmit p b frame s).trace ++
          (tag true t2 ++ tag false (CanProxy.receive p b s').trace)) := by
  refine ⟨?_, ?_, ?_⟩
  · intros; rfl
  · intros; exact ⟨rfl, rfl⟩
  · intro μ inst σ ε F p b frame s s' c2 t2 h2
    refine ⟨_, ?_, ?_, rfl⟩
    · rw [tag_append]
      exact shuffle_prepend_left _ (shuffle_right_first _ _)
    · rw [IsSection] at h2
      subst h2
      rw [show (CanProxy.transmit p b frame s).trace =
          BusEvent.lockAcquire p.mutex ::
            ([CanOp.transmit frame].map BusEvent.call ++
              [BusEvent.lockRelease p.mutex]) from rfl]
      rw [exclusiveOk_tag_section]
      rw [exclusiveOk_tag_section]
      rw [show (CanProxy.receive p b s').trace =
          BusEvent.lockAcquire p.mutex ::
            (([CanOp.receive] : List (CanOp F)).map BusEvent.call ++
              [BusEvent.lockRelease p.mutex]) from rfl]
      exact exclusiveOk_tag_section_only false p.mutex _

/-- Witness for C7's independence conjunct: a concrete transmit-then-receive
by one driver on the mock CAN bus, with another sharer's receive section
scheduled in between. -/
theorem C7_can_independent_locks_witness :
    ∃ zs, Shuffle
        (tag false ((CanProxy.transmit (⟨0⟩ : CanProxy Nat) mockCanBusErr 5
            0).trace ++
          (CanProxy.receive (⟨0⟩ : CanProxy Nat) mockCanBusErr 1).trace))
        (tag true [BusEvent.lockAcquire 0, BusEvent.call CanOp.receive,
          BusEvent.lockRelease 0]) zs ∧
      exclusiveOk none zs = true ∧
      zs = tag false (CanProxy.transmit (⟨0⟩ : CanProxy Nat) mockCanBusErr 5
          0).trace ++
        (tag true [BusEvent.lockAcquire 0, BusEvent.call CanOp.receive,
            BusEvent.lockRelease 0] ++
          tag false (CanProxy.receive (⟨0⟩ : CanProxy Nat) mockCanBusErr
            1).trace) :=
  C7_can_independent_locks.2.2 Nat Nat Nat Nat ⟨0⟩ mockCanBusErr 5 0 1
    [CanOp.receive]
    [BusEvent.lockAcquire 0, BusEvent.call CanOp.receive,
      BusEvent.lockRelease 0]
    rfl

/-- C8: cloning any proxy produces a proxy holding the same lock reference as
the original (`mutex` field equal; the bus is not copied), and every
operation invoked on the clone behaves identically to the same operation on
the original — same lock acquisitions, same underlying calls, same result. -/
theorem C8_clone_same_lock :
    (∀ (μ : Type) (p : I2cProxy μ), (I2cProxy.clone p).mutex = p.mutex) ∧
    (∀ (μ : Type) (p : SpiProxy μ), (SpiProxy.clone p).mutex = p.mutex) ∧
    (∀ (μ : Type) (p : AdcProxy μ), (AdcProxy.clone p).mutex = p.mutex) ∧
    (∀ (μ : Type) (p : CanProxy μ), (CanProxy.clone p).mutex = p.mutex) ∧
    (∀ (μ σ ε : Type) (p : I2cProxy μ) (b : I2cBus σ ε) (addr : Nat)
        (buffer : List Nat) (s : σ),
      I2cProxy.write (I2cProxy.clone p) b addr buffer s =
        I2cProxy.write p b addr buffer s) ∧
    (∀ (μ σ ε : Type) (p : I2cProxy μ) (b : I2cBus σ ε) (addr : Nat)
        (buffer : List Nat) (s : σ),
      I2cProxy.read (I2cProxy.clone p) b addr buffer s =
        I2cProxy.read p b addr buffer s) ∧
    (∀ (μ σ ε : Type) (p : I2cProxy μ) (b : I2cBus σ ε) (addr : Nat)
        (bufferIn bufferOut : List Nat) (s : σ),
      I2cProxy.writeRead (I2cProxy.clone p) b addr bufferIn bufferOut s =
        I2cProxy.writeRead p b addr bufferIn bufferOut s) ∧
    (∀ (μ σ ε : Type) (p : SpiProxy μ) (b : SpiBus σ ε) (words : List Nat)
        (s : σ),
      SpiProxy.transfer (SpiProxy.clone p) b words s =
        SpiProxy.transfer p b words s) ∧
    (∀ (μ σ ε : Type) (p : SpiProxy μ) (b : SpiBus σ ε) (words : List Nat)
        (s : σ),
      SpiProxy.write (SpiProxy.clone p) b words s =
        SpiProxy.write p b words s) ∧
    (∀ (μ σ ε F : Type) (p : CanProxy μ) (b : CanBus σ ε F) (frame : F)
        (s : σ),
      CanProxy.transmit (CanProxy.clone p) b frame s =
        CanProxy.transmit p b frame s) ∧
    (∀ (μ σ ε F : Type) (p : CanProxy μ) (b : CanBus σ ε F) (s : σ),
      CanProxy.receive (CanProxy.clone p) b s = CanProxy.receive p b s) ∧
    (∀ (μ σ ε W π : Type) (p : AdcProxy μ)
        (b : π → σ → σ × Except (NbError ε) W) (pin : π) (s : σ)
        (run : ProxyRun (AdcProxy μ) μ (AdcOp π) σ (Except (NbError ε) W)),
      AdcProxy.readRun (AdcProxy.clone p) b pin s run ↔
        AdcProxy.readRun p b pin s run) := by
  refine ⟨?_, ?_, ?_, ?_, ?_, ?_, ?_, ?_, ?_, ?_, ?_, ?_⟩ <;> intros <;> rfl

/-- C9: AdcProxy::read never returns `Err(nb::Error::WouldBlock)` to its
caller; whenever it returns an error, that error is `nb::Error::Other(e)`
where `e` is exactly the non-would-block error the underlying bus's read
produced on its final poll. -/
theorem C9_adc_never_wouldblock :
    ∀ (μ σ ε W π : Type) (p : AdcProxy μ)
      (b : π → σ → σ × Except (NbError ε) W) (pin : π) (s : σ)
      (run : ProxyRun (AdcProxy μ) μ (AdcOp π) σ (Except (NbError ε) W)),
      AdcProxy.readRun p b pin s run →
      run.result ≠ Except.error NbError.wouldBlock ∧
      (∀ x, run.result = Except.error x →
        ∃ e, x = NbError.other e ∧
          ∃ s0, b pin s0 = (run.busAfter, Except.error (NbError.other e))) := by
  intro μ σ ε W π p b pin s run hrun
  cases hrun with
  | mk h =>
      rename_i s' r k
      cases r with
      | ok w =>
          constructor
          · simp [Except.mapError]
          · intro x hx
            simp [Except.mapError] at hx
      | error e =>
          constructor
          · simp [Except.mapError]
          · intro x hx
            simp only [Except.mapError] at hx
            injection hx with hx'
            obtain ⟨s0, hf⟩ := blockRun_error_src h e rfl
            exact ⟨e, hx'.symm, s0, hf⟩

/-- Witness for C9: a concrete run of AdcProxy::read on the once-blocking
mock ADC, evaluated through the theorem. -/
theorem C9_adc_never_wouldblock_witness :
    (⟨⟨0⟩, 2, Except.ok 42,
        [BusEvent.lockAcquire 0, BusEvent.call (AdcOp.read ()),
          BusEvent.call (AdcOp.read ()), BusEvent.lockRelease 0]⟩ :
      ProxyRun (AdcProxy Nat) Nat (AdcOp Unit) Nat
        (Except (NbError Nat) Nat)).result ≠
      Except.error NbError.wouldBlock ∧
    (∀ x, (⟨⟨0⟩, 2, Except.ok 42,
        [BusEvent.lockAcquire 0, BusEvent.call (AdcOp.read ()),
          BusEvent.call (AdcOp.read ()), BusEvent.lockRelease 0]⟩ :
      ProxyRun (AdcProxy Nat) Nat (AdcOp Unit) Nat
        (Except (NbError Nat) Nat)).result = Except.error x →
      ∃ e, x = NbError.other e ∧
        ∃ s0, mockAdcOnceBlock () s0 =
          ((⟨⟨0⟩, 2, Except.ok 42,
              [BusEvent.lockAcquire 0, BusEvent.call (AdcOp.read ()),
                BusEvent.call (AdcOp.read ()), BusEvent.lockRelease 0]⟩ :
            ProxyRun (AdcProxy Nat) Nat (AdcOp Unit) Nat
              (Except (NbError Nat) Nat)).busAfter,
            Except.error (NbError.other e))) := by
  have h1 : mockAdcOnceBlock () 0 = (1, Except.error NbError.wouldBlock) := rfl
  have h2 : mockAdcOnceBlock () 1 = (2, Except.ok 42) := rfl
  exact C9_adc_never_wouldblock Nat Nat Nat Nat Unit ⟨0⟩ mockAdcOnceBlock () 0 _
    (AdcProxy.readRun.mk (BlockRun.step h1 (BlockRun.done_ok h2)))

/-- C10: every proxy operation leaves the proxy value itself unchanged — each
proxy struct is determined by its single lock-reference field (SpiProxy's
marker is zero-sized), and no operation changes that field, so repeated calls
on the same proxy always go through the same lock reference. -/
theorem C10_proxy_value_unchanged :
    (∀ (μ : Type) (p q : I2cProxy μ), p.mutex = q.mutex → p = q) ∧
    (∀ (μ : Type) (p q : SpiProxy μ), p.mutex = q.mutex → p = q) ∧
    (∀ (μ : Type) (p q : AdcProxy μ), p.mutex = q.mutex → p = q) ∧
    (∀ (μ : Type) (p q : CanProxy μ), p.mutex = q.mutex → p = q) ∧
    (∀ (μ σ ε : Type) (p : I2cProxy μ) (b : I2cBus σ ε) (addr : Nat)
        (buffer : List Nat) (s : σ),
      (I2cProxy.write p b addr buffer s).proxyAfter = p ∧
      (I2cProxy.read p b addr buffer s).proxyAfter = p) ∧
    (∀ (μ σ ε : Type) (p : I2cProxy μ) (b : I2cBus σ ε) (addr : Nat)
        (bufferIn bufferOut : List Nat) (s : σ),
      (I2cProxy.writeRead p b addr bufferIn bufferOut s).proxyAfter = p) ∧
    (∀ (μ σ ε : Type) (p : SpiProxy μ) (b : SpiBus σ ε) (words : List Nat)
        (s : σ),
      (SpiProxy.transfer p b words s).proxyAfter = p ∧
      (SpiProxy.write p b words s).proxyAfter = p) ∧
    (∀ (μ σ ε F : Type) (p : CanProxy μ) (b : CanBus σ ε F) (frame : F)
        (s : σ),
      (CanProxy.transmit p b frame s).proxyAfter = p ∧
      (CanProxy.receive p b s).proxyAfter = p) ∧
    (∀ (μ σ ε W π : Type) (p : AdcProxy μ)
        (b : π → σ → σ × Except (NbError ε) W) (pin : π) (s : σ)
        (run : ProxyRun (AdcProxy μ) μ (AdcOp π) σ (Except (NbError ε) W)),
      AdcProxy.readRun p b pin s run → run.proxyAfter = p) := by
  refine ⟨?_, ?_, ?_, ?_, ?_, ?_, ?_, ?_, ?_⟩
  · intro μ p q h
    cases p; cases q; simpa using h
  · intro μ p q h
    cases p with
    | mk m u => cases q with
      | mk m2 u2 =>
          cases u; cases u2; simpa using h
  · intro μ p q h
    cases p; cases q; simpa using h
  · intro μ p q h
    cases p; cases q; simpa using h
  · intros; exact ⟨rfl, rfl⟩
  · intros; rfl
  · intros; exact ⟨rfl, rfl⟩
  · intros; exact ⟨rfl, rfl⟩
  · intro μ σ ε W π p b pin s run hrun
    cases hrun
    rfl

/-- Witness for C10: the field-determination conjuncts applied to concrete
proxies over mutex reference `0`. -/
theorem C10_proxy_value_unchanged_witness :
    (⟨0⟩ : I2cProxy Nat) = ⟨0⟩ ∧ (⟨0, ()⟩ : SpiProxy Nat) = ⟨0, ()⟩ ∧
    (⟨0⟩ : AdcProxy Nat) = ⟨0⟩ ∧ (⟨0⟩ : CanProxy Nat) = ⟨0⟩ :=
  ⟨C10_proxy_value_unchanged.1 Nat ⟨0⟩ ⟨0⟩ rfl,
    C10_proxy_value_unchanged.2.1 Nat ⟨0, ()⟩ ⟨0, ()⟩ rfl,
    C10_proxy_value_unchanged.2.2.1 Nat ⟨0⟩ ⟨0⟩ rfl,
    C10_proxy_value_unchanged.2.2.2.1 Nat ⟨0⟩ ⟨0⟩ rfl⟩

end SharedBus
